import Mathlib

/-!
Verification of the undervolt permit pipeline against its specification.

Each definition below is a shallow embedding of a function of the
repository (file and symbol named in its doc comment).  Floats are
modelled as exact rationals or reals; pandas/cuDF null values are
modelled with `Option`; a dataframe is modelled as a list of rows.
-/

namespace Undervolt

/-! ## Keyword feature extraction
`scripts/python/cluster_new_permits.py`, `extract_features`, and
`src/pipeline/nlp/enrichment.py`, `nlp_enrich`. -/

/-- The keyword vocabulary `NLP_KEYWORDS` (identical in
`cluster_new_permits.py` and `src/pipeline/config.py`). -/
def NLP_KEYWORDS : List (List Char) :=
  ["residential".toList, "commercial".toList, "remodel".toList, "repair".toList,
   "new".toList, "demolition".toList, "foundation".toList, "roof".toList,
   "window".toList, "permit".toList, "hvac".toList, "electrical".toList,
   "plumbing".toList, "mechanical".toList, "multi-family".toList,
   "single-family".toList]

/-- `needle` occurs as a contiguous substring of `hay`
(Python `needle in hay`). -/
def containsSub (needle hay : List Char) : Bool :=
  hay.tails.any (fun t => needle.isPrefixOf t)

/-- `extract_features` of `cluster_new_permits.py`: a text (`none` models
Python `None`; `some []` the empty string, both falsy) is mapped to one
binary feature per keyword, `1` when the lower-cased text contains the
keyword as a substring. -/
def extract_features (description : Option (List Char)) : List ℕ :=
  match description with
  | none => List.replicate NLP_KEYWORDS.length 0
  | some d =>
    if d = [] then List.replicate NLP_KEYWORDS.length 0
    else
      let desc := d.map Char.toLower
      NLP_KEYWORDS.map (fun kw => if containsSub kw desc then 1 else 0)

/-- One row of `nlp_enrich` of `src/pipeline/nlp/enrichment.py`: for each
text column (a cell being `none` models a null, filled with `""` by
`fillna`), one binary feature per keyword, columns ordered
(text column, keyword). -/
def nlp_enrich_row (cells : List (Option (List Char))) : List ℕ :=
  cells.flatMap (fun cell =>
    let safe := (cell.getD []).map Char.toLower
    NLP_KEYWORDS.map (fun kw => if containsSub kw safe then 1 else 0))

/-! ## Batch clustering
`src/pipeline/clustering/kmeans.py`, `run_cuml_clustering`, and
`src/pipeline/clustering_unified.py`, `UnifiedClustering.fit_predict`.
The external k-means/PCA library calls are modelled by recording the
parameters the code passes to them; the degenerate branches that never
reach the library are modelled exactly. -/

/-- What `run_cuml_clustering` does with a feature matrix: return the
frame unchanged (no feature columns), skip clustering and label every
row `0`, or call k-means with the recorded cluster count and optional
PCA component count. -/
inductive ClusterAction where
  | noFeatures : ClusterAction
  | assignZero : List ℕ → ClusterAction
  | kmeans : ℕ → Option ℕ → ClusterAction
deriving DecidableEq, Repr

/-- `run_cuml_clustering` of `src/pipeline/clustering/kmeans.py`,
in terms of the matrix shape and the configured `n_clusters` (`k`) and
`n_pca_components` (`pca`): clamp the PCA component count to
`min pca n_features n_samples` (skipping PCA below 2), clamp the
cluster count to `min k n_samples`, and when that is below 2 skip
clustering and assign every row the label `0`. -/
def run_cuml_clustering (nSamples nFeatures k pca : ℕ) : ClusterAction :=
  if nFeatures = 0 then .noFeatures
  else
    let nComponents := min pca (min nFeatures nSamples)
    let pcaUsed : Option ℕ := if nComponents < 2 then none else some nComponents
    let nClusters := min k nSamples
    if nClusters < 2 then .assignZero (List.replicate nSamples 0)
    else .kmeans nClusters pcaUsed

/-- `UnifiedClustering.fit_predict` of `src/pipeline/clustering_unified.py`:
the configured `n_pca_components` and `n_clusters` are passed to PCA and
k-means unchanged, with no clamping against the matrix shape and no
degenerate-input branch. -/
def fit_predict (nSamples nFeatures k pca : ℕ) : ClusterAction :=
  .kmeans k (some pca)

end Undervolt

namespace Undervolt

/-- The feature vector has one entry per keyword, 16 in all. -/
lemma extract_features_length (d : Option (List Char)) :
    (extract_features d).length = 16 := by
  cases d with
  | none => rfl
  | some t =>
    by_cases h : t = [] <;> simp [extract_features, h, NLP_KEYWORDS]

/-- Every feature entry is 0 or 1. -/
lemma extract_features_binary (d : Option (List Char)) :
    ∀ x ∈ extract_features d, x = 0 ∨ x = 1 := by
  intro x hx
  cases d with
  | none => simp [extract_features] at hx; omega
  | some t =>
    by_cases h : t = []
    · simp [extract_features, h] at hx; omega
    · simp [extract_features, h] at hx
      obtain ⟨kw, _, hkw⟩ := hx
      by_cases hc : containsSub kw (t.map Char.toLower) = true <;>
        simp [hc] at hkw <;> omega

/-- C4: for every input text — null and empty included — the feature
vector has exactly `len(NLP_KEYWORDS) = 16` entries, each 0 or 1, in the
fixed keyword order (entry `i` is 1 iff the lower-cased text contains
keyword `i` as a substring); null/empty text gives the all-zero vector;
and `nlp_enrich` emits `len(text_columns) * len(keywords)` features per
row. -/
theorem C4_feature_vector_shape (d : Option (List Char)) :
    (extract_features d).length = NLP_KEYWORDS.length ∧
    (extract_features d).length = 16 ∧
    (∀ x ∈ extract_features d, x = 0 ∨ x = 1) ∧
    extract_features none = List.replicate 16 0 ∧
    extract_features (some []) = List.replicate 16 0 ∧
    (∀ t : List Char, t ≠ [] →
      extract_features (some t) =
        NLP_KEYWORDS.map
          (fun kw => if containsSub kw (t.map Char.toLower) then 1 else 0)) ∧
    (∀ cells : List (Option (List Char)),
      (nlp_enrich_row cells).length = cells.length * NLP_KEYWORDS.length) := by
  refine ⟨?_, extract_features_length d, extract_features_binary d, rfl, rfl, ?_, ?_⟩
  · rw [extract_features_length]; rfl
  · intro t ht
    simp [extract_features, ht]
  · intro cells
    induction cells with
    | nil => rfl
    | cons c cs ih =>
      simp only [nlp_enrich_row, List.flatMap_cons, List.length_append,
        List.length_map, List.length_cons] at ih ⊢
      rw [ih]; ring

/-- Witness for C4 at the concrete description "new home". -/
theorem C4_feature_vector_shape_witness :
    extract_features (some "new home".toList) =
      NLP_KEYWORDS.map
        (fun kw =>
          if containsSub kw ("new home".toList.map Char.toLower) then 1 else 0) ∧
    "new home".toList ≠ [] := by
  refine ⟨(C4_feature_vector_shape (some "new home".toList)).2.2.2.2.2.1
    "new home".toList (by decide), by decide⟩

/-- C3 counterexample: on a 1-sample matrix with `k = 8`,
`UnifiedClustering.fit_predict` calls k-means with `n_clusters = 8`,
not `min 8 1 = 1`, and does not take the assign-label-0 branch. -/
theorem C3_counterexample :
    fit_predict 1 16 8 10 = ClusterAction.kmeans 8 (some 10) ∧
    8 ≠ min 8 1 ∧
    ClusterAction.kmeans 8 (some 10) ≠
      ClusterAction.assignZero (List.replicate 1 0) := by
  refine ⟨rfl, by decide, by decide⟩

/-- C3 (amended): `run_cuml_clustering` clamps the PCA component count
to `min(pca, n_features, n_samples)` (skipping PCA when that is below
2), runs k-means with `n_clusters = min(k, n_samples)`, and with fewer
than 2 samples assigns every row the label 0 instead of raising; in
particular 1 sample with `k = 8` yields the single label 0.  (The
`UnifiedClustering.fit_predict` path performs no such clamping, per the
counterexample.) -/
theorem C3_degenerate_input_policy (nSamples nFeatures k pca : ℕ)
    (hf : 0 < nFeatures) :
    (2 ≤ min k nSamples →
      run_cuml_clustering nSamples nFeatures k pca =
        ClusterAction.kmeans (min k nSamples)
          (if min pca (min nFeatures nSamples) < 2 then none
           else some (min pca (min nFeatures nSamples)))) ∧
    (nSamples < 2 →
      run_cuml_clustering nSamples nFeatures k pca =
        ClusterAction.assignZero (List.replicate nSamples 0)) ∧
    run_cuml_clustering 1 nFeatures 8 pca = ClusterAction.assignZero [0] := by
  refine ⟨?_, ?_, ?_⟩
  · intro h2
    simp only [run_cuml_clustering]
    rw [if_neg (by omega), if_neg (by omega)]
  · intro h1
    simp only [run_cuml_clustering]
    rw [if_neg (by omega), if_pos (by omega)]
  · simp only [run_cuml_clustering]
    rw [if_neg (by omega), if_pos (by omega)]
    rfl

/-- Witness for C3 at a 1×16 matrix, `k = 8`, `pca = 10`. -/
theorem C3_degenerate_input_policy_witness :
    run_cuml_clustering 1 16 8 10 = ClusterAction.assignZero [0] :=
  (C3_degenerate_input_policy 1 16 8 10 (by decide)).2.2

/-! ## Record normalization
`src/pipeline/data/cleaner.py`, `clean_permit_data`: the latitude /
longitude row filter and the ZIP-code extraction loop.  A float column
cell is an `Option ℚ` (`none` models NaN — in pandas every comparison
with NaN is false); a string column cell is an `Option (List Char)`
(`none` models NaN, which `astype(str)` turns into the string "nan"). -/

/-- One row as seen by the lat/lon filter of `clean_permit_data`. -/
structure GeoRow where
  lat : Option ℚ
  lon : Option ℚ
deriving DecidableEq, Repr

/-- The row predicate of the filter
`df[(lat > -90) & (lat < 90) & (lon > -180) & (lon < 180)]`:
strict bounds, false on NaN. -/
def latLonKeep (r : GeoRow) : Bool :=
  match r.lat, r.lon with
  | some la, some lo => decide (-90 < la ∧ la < 90 ∧ -180 < lo ∧ lo < 180)
  | _, _ => false

/-- The lat/lon filtering step of `clean_permit_data`. -/
def filterLatLon (rows : List GeoRow) : List GeoRow :=
  rows.filter latLonKeep

/-- The retention predicate in the words of the spec (inclusive world
bounds), for comparison with `latLonKeep`. -/
def specGeoRetain (r : GeoRow) : Bool :=
  match r.lat, r.lon with
  | some la, some lo => decide (-90 ≤ la ∧ la ≤ 90 ∧ -180 ≤ lo ∧ lo ≤ 180)
  | _, _ => false

/-- C5 counterexample: the row with latitude exactly 90 (longitude 0)
satisfies the claim's inclusive retention predicate but
`clean_permit_data` drops it — the code's bounds are strict. -/
theorem C5_counterexample :
    specGeoRetain ⟨some 90, some 0⟩ = true ∧
    filterLatLon [⟨some 90, some 0⟩] = [] := by
  constructor <;> decide

/-- C5 (amended): `clean_permit_data` retains a row iff its coordinates
are non-null and satisfy the strict bounds -90 < lat < 90 and
-180 < lon < 180 (rows violating this are dropped entirely); every
output row hence has non-null coordinates within those strict bounds. -/
theorem C5_geographic_filter (rows : List GeoRow) (r : GeoRow) :
    (r ∈ filterLatLon rows ↔
      r ∈ rows ∧ ∃ la lo, r.lat = some la ∧ r.lon = some lo ∧
        -90 < la ∧ la < 90 ∧ -180 < lo ∧ lo < 180) := by
  rw [filterLatLon, List.mem_filter]
  constructor
  · rintro ⟨hm, hk⟩
    refine ⟨hm, ?_⟩
    rcases r with ⟨la, lo⟩
    cases la with
    | none => simp [latLonKeep] at hk
    | some la =>
      cases lo with
      | none => simp [latLonKeep] at hk
      | some lo =>
        simp only [latLonKeep, decide_eq_true_eq] at hk
        exact ⟨la, lo, rfl, rfl, hk.1, hk.2.1, hk.2.2.1, hk.2.2.2⟩
  · rintro ⟨hm, la, lo, hla, hlo, h1, h2, h3, h4⟩
    refine ⟨hm, ?_⟩
    rcases r with ⟨rla, rlo⟩
    cases hla; cases hlo
    simp only [latLonKeep, decide_eq_true_eq]
    exact ⟨h1, h2, h3, h4⟩

/-- Witness for C5: a row strictly inside the bounds is retained. -/
theorem C5_geographic_filter_witness :
    (⟨some 30, some (-97)⟩ : GeoRow) ∈ filterLatLon [⟨some 30, some (-97)⟩] :=
  (C5_geographic_filter [⟨some 30, some (-97)⟩] ⟨some 30, some (-97)⟩).mpr
    ⟨by decide, 30, -97, rfl, rfl, by norm_num, by norm_num, by norm_num,
      by norm_num⟩

/-- `astype("str")` on a cell: NaN becomes the literal string "nan". -/
def strOfCell : Option (List Char) → List Char
  | none => "nan".toList
  | some s => s

/-- `str.extract(r"(\d{5})")` on one cell: the leftmost run of 5
consecutive digits, if any. -/
def firstFiveDigits : List Char → Option (List Char)
  | [] => none
  | c :: rest =>
    let five := (c :: rest).take 5
    if five.length = 5 ∧ five.all Char.isDigit then some five
    else firstFiveDigits rest

/-- One iteration of the ZIP loop of `clean_permit_data`:
`zip_code = extracted.fillna(zip_code)` — keep the extraction from the
current source when it matched, else the accumulated value. -/
def zipStep (acc src : Option (List Char)) : Option (List Char) :=
  match firstFiveDigits (strOfCell src) with
  | some z => some z
  | none => acc

/-- The ZIP-extraction loop of `clean_permit_data`: starting from a null
column, fold `zipStep` over the source columns in `ZIP_SOURCES` order —
a source that matches overwrites whatever an earlier source produced. -/
def zip_from_sources (sources : List (Option (List Char))) : Option (List Char) :=
  sources.foldl zipStep none

/-- The ZIP rule in the words of the spec: first source matching a
5-digit pattern wins, sentinel "UNKNOWN" when none match; for
comparison with `zip_from_sources`. -/
def zip_claimed (sources : List (Option (List Char))) : List Char :=
  match sources.findSome? (fun src => firstFiveDigits (strOfCell src)) with
  | some z => z
  | none => "UNKNOWN".toList

/-- The overriding fold keeps the last match: it equals `findSome?`
over the reversed source list, falling back to the start value. -/
lemma zip_foldl_eq_findSome_reverse :
    ∀ (l : List (Option (List Char))) (acc : Option (List Char)),
      l.foldl zipStep acc
        = ((l.reverse.findSome? (fun src => firstFiveDigits (strOfCell src))).map
            some).getD acc := by
  intro l
  induction l with
  | nil => intro acc; rfl
  | cons x xs ih =>
    intro acc
    rw [List.foldl_cons, ih, List.reverse_cons, List.findSome?_append]
    cases hx : firstFiveDigits (strOfCell x) <;>
      cases hxs : xs.reverse.findSome? (fun src => firstFiveDigits (strOfCell src)) <;>
        simp [List.findSome?, hx, hxs, zipStep]

/-- C6 counterexample: with `original_zip = "11111"` and
`contractor_zip = "22222"`, `clean_permit_data` sets `zip_code` to
"22222" (the later source overwrites), while the claim demands the
first match "11111"; and when no source matches, the code leaves
`zip_code` null rather than "UNKNOWN". -/
theorem C6_counterexample :
    zip_from_sources [some "11111".toList, some "22222".toList, none]
        = some "22222".toList ∧
    zip_claimed [some "11111".toList, some "22222".toList, none]
        = "11111".toList ∧
    some "22222".toList ≠ some "11111".toList ∧
    zip_from_sources [some "hello".toList, none, none] = none ∧
    zip_claimed [some "hello".toList, none, none] = "UNKNOWN".toList := by
  refine ⟨by decide, by decide, by decide, by decide, by decide⟩

/-- C6 (amended): `clean_permit_data` sets `zip_code` to the 5-digit
substring extracted from the **last** source column (in
`ZIP_SOURCES` order) whose value contains 5 consecutive digits — later
sources take precedence — and leaves `zip_code` null when no source
matches (no "UNKNOWN" sentinel is produced here). -/
theorem C6_zip_precedence (sources : List (Option (List Char))) :
    zip_from_sources sources
      = sources.reverse.findSome? (fun src => firstFiveDigits (strOfCell src)) := by
  rw [zip_from_sources, zip_foldl_eq_findSome_reverse]
  cases h : sources.reverse.findSome? (fun src => firstFiveDigits (strOfCell src)) <;>
    simp [h]

/-! ## Monthly-trend aggregation
`scripts/python/analyze_trends.py`, `parse_dates` and
`analyze_monthly_trends`.  A date value is `Option (ℕ × ℕ × ℕ)`
(year, month, day); `none` models a missing value or one that
`pd.to_datetime(errors="coerce")` turned into NaT. -/

/-- Timestamp comparison, lexicographic on (year, month, day). -/
def dateLe (a b : ℕ × ℕ × ℕ) : Bool :=
  decide (a.1 < b.1 ∨ (a.1 = b.1 ∧
    (a.2.1 < b.2.1 ∨ (a.2.1 = b.2.1 ∧ a.2.2 ≤ b.2.2))))

/-- `parse_dates` of `analyze_trends.py`: coerce-parse the date column
(`none` for unparsable/missing), drop nulls with
`df[df.issue_date.notna()]`, then keep only dates on or after
2020-01-01 (`df[df.issue_date >= "2020-01-01"]`). -/
def parse_dates (rows : List (Option (ℕ × ℕ × ℕ))) : List (ℕ × ℕ × ℕ) :=
  (rows.filterMap id).filter (fun d => dateLe (2020, 1, 1) d)

/-- `dt.to_period("M")`: the calendar year-month of a date. -/
def yearMonth (d : ℕ × ℕ × ℕ) : ℕ × ℕ := (d.1, d.2.1)

/-- Order on year-month keys, as `groupby`/`sort_values` sorts them. -/
def ymLe (a b : ℕ × ℕ) : Bool :=
  decide (a.1 < b.1 ∨ (a.1 = b.1 ∧ a.2 ≤ b.2))

/-- `analyze_monthly_trends` of `analyze_trends.py`:
`df.groupby("year_month").size()` sorted by `year_month` — one
`(year-month, count)` bucket per distinct year-month value. -/
def analyze_monthly_trends (dates : List (ℕ × ℕ × ℕ)) : List ((ℕ × ℕ) × ℕ) :=
  (((dates.map yearMonth).dedup).mergeSort ymLe).map
    (fun ym => (ym, (dates.filter (fun d => yearMonth d = ym)).length))

/-- C8 counterexample: one record with the perfectly parseable date
2019-05-01 is excluded by the hardcoded `>= 2020-01-01` cutoff of
`parse_dates`, so it is counted in no year-month bucket and the
per-month totals sum to 0, not to the number (1) of records with
parseable dates. -/
theorem C8_counterexample :
    (([some (2019, 5, 1)] : List (Option (ℕ × ℕ × ℕ))).filterMap id).length = 1 ∧
    parse_dates [some (2019, 5, 1)] = [] ∧
    ((analyze_monthly_trends (parse_dates [some (2019, 5, 1)])).map
        Prod.snd).sum = 0 := by
  refine ⟨by decide, by decide, ?_⟩
  rw [(by decide : parse_dates [some (2019, 5, 1)] = [])]
  simp [analyze_monthly_trends]

/-- C8 (amended): missing/unparsable dates contribute to no bucket, and
so do parseable dates before the 2020-01-01 performance cutoff; every
date surviving `parse_dates` is counted in exactly one bucket, the one
for its calendar year-month (bucket keys are distinct, each bucket
counts exactly the surviving dates of its year-month), and the
per-month totals sum to the number of surviving dates. -/
theorem C8_monthly_trend_buckets (rows : List (Option (ℕ × ℕ × ℕ))) :
    parse_dates (none :: rows) = parse_dates rows ∧
    (∀ d ∈ parse_dates rows, dateLe (2020, 1, 1) d = true) ∧
    ((analyze_monthly_trends (parse_dates rows)).map Prod.fst).Nodup ∧
    (∀ ym c, (ym, c) ∈ analyze_monthly_trends (parse_dates rows) →
      c = ((parse_dates rows).filter (fun d => yearMonth d = ym)).length) ∧
    (∀ d ∈ parse_dates rows,
      yearMonth d ∈ (analyze_monthly_trends (parse_dates rows)).map Prod.fst) ∧
    ((analyze_monthly_trends (parse_dates rows)).map Prod.snd).sum
      = (parse_dates rows).length := by
  set ds := parse_dates rows with hds
  have hkeys : (analyze_monthly_trends ds).map Prod.fst
      = ((ds.map yearMonth).dedup).mergeSort ymLe := by
    simp [analyze_monthly_trends, List.map_map, Function.comp_def]
  refine ⟨?_, ?_, ?_, ?_, ?_, ?_⟩
  · simp [parse_dates, hds]
  · intro d hd
    exact (List.mem_filter.mp hd).2
  · rw [hkeys]
    exact ((List.mergeSort_perm (ds.map yearMonth).dedup ymLe).nodup_iff).mpr
      (List.nodup_dedup _)
  · intro ym c hmem
    simp only [analyze_monthly_trends, List.mem_map] at hmem
    obtain ⟨ym', _, heq⟩ := hmem
    have h1 : ym' = ym := congrArg Prod.fst heq
    have h2 := congrArg Prod.snd heq
    simp only at h2
    rw [← h2, h1]
  · intro d hd
    rw [hkeys, (List.mergeSort_perm (ds.map yearMonth).dedup ymLe).mem_iff,
      List.mem_dedup]
    exact List.mem_map_of_mem yearMonth hd
  · have hsnd : (analyze_monthly_trends ds).map Prod.snd
        = (((ds.map yearMonth).dedup).mergeSort ymLe).map
            (fun ym => (ds.filter (fun d => yearMonth d = ym)).length) := by
      simp [analyze_monthly_trends, List.map_map, Function.comp_def]
    rw [hsnd,
      ((List.mergeSort_perm (ds.map yearMonth).dedup ymLe).map _).sum_eq]
    have hcount : ∀ ym : ℕ × ℕ, (ds.filter (fun d => yearMonth d = ym)).length
        = @List.count _ instBEqOfDecidableEq ym (ds.map yearMonth) := by
      intro ym
      rw [← List.countP_eq_length_filter]
      show ds.countP (fun d => decide (yearMonth d = ym))
        = (ds.map yearMonth).countP
            (fun x => @BEq.beq _ instBEqOfDecidableEq x ym)
      rw [List.countP_map]
      rfl
    calc ((ds.map yearMonth).dedup.map
            (fun ym => (ds.filter (fun d => yearMonth d = ym)).length)).sum
        = ((ds.map yearMonth).dedup.map
            (fun ym => @List.count _ instBEqOfDecidableEq ym
              (ds.map yearMonth))).sum := by
          congr 1
          exact List.map_congr_left (fun ym _ => hcount ym)
      _ = (ds.map yearMonth).length := List.sum_map_count_dedup_eq_length _
      _ = ds.length := List.length_map _ _

/-- Witness for C8: one surviving date, one bucket holding it. -/
theorem C8_monthly_trend_buckets_witness :
    dateLe (2020, 1, 1) (2024, 3, 9) = true ∧
    (2024, 3) ∈ (analyze_monthly_trends
        (parse_dates [some (2024, 3, 9)])).map Prod.fst :=
  ⟨(C8_monthly_trend_buckets [some (2024, 3, 9)]).2.1 (2024, 3, 9) (by decide),
   (C8_monthly_trend_buckets [some (2024, 3, 9)]).2.2.2.2.1 (2024, 3, 9)
     (by decide)⟩

/-! ## The unified cleaner's coordinate filter
`src/pipeline/data_unified.py`, `UnifiedDataCleaner`.  A row keeps its
coordinate cells and the ZIP source cells; `clean` filters on the
hardcoded Austin bounding box (step 2) and then derives `zip_code`
(step 5) — the date/numeric steps 3–4 only rewrite date and numeric
cells in place and neither drop rows nor touch coordinates. -/

/-- One row as seen by `UnifiedDataCleaner`. -/
structure URow where
  latitude : Option ℚ
  longitude : Option ℚ
  zipSources : List (Option (List Char))
  zip : Option (List Char)
deriving DecidableEq, Repr

/-- The row predicate of `_filter_coordinates`:
`(lat >= 30.0) & (lat <= 30.6) & (lng >= -98.0) & (lng <= -97.5)`,
false on null coordinates. -/
def austinKeep (r : URow) : Bool :=
  match r.latitude, r.longitude with
  | some la, some lo =>
    decide (30 ≤ la ∧ la ≤ 30.6 ∧ -98 ≤ lo ∧ lo ≤ -97.5)
  | _, _ => false

/-- `_filter_coordinates` of `UnifiedDataCleaner`. -/
def unified_filter_coordinates (rows : List URow) : List URow :=
  rows.filter austinKeep

/-- Python `str.replace(".0", "")`: delete every (non-overlapping,
left-to-right) occurrence of ".0". -/
def replaceDot0 : List Char → List Char
  | '.' :: '0' :: rest => replaceDot0 rest
  | c :: rest => c :: replaceDot0 rest
  | [] => []

/-- `_extract_zip` of `UnifiedDataCleaner` on one row: first non-null
source column wins (no 5-digit validation), then `astype(str)` /
`.replace(".0", "")`, and the literal string "nan" becomes "UNKNOWN". -/
def extract_zip_unified (sources : List (Option (List Char))) : List Char :=
  let firstNonNull :=
    sources.foldl (fun acc s => if acc.isSome then acc else s) none
  let cleaned := replaceDot0 (strOfCell firstNonNull)
  if cleaned = "nan".toList then "UNKNOWN".toList else cleaned

/-- The per-row effect of `clean` after the coordinate filter: derive
`zip_code`; coordinates are untouched. -/
def unified_clean_rest (r : URow) : URow :=
  { r with zip := some (extract_zip_unified r.zipSources) }

/-- `UnifiedDataCleaner.clean`, restricted to the modelled columns:
filter on the Austin box, then derive `zip_code` for the survivors. -/
def unified_clean (rows : List URow) : List URow :=
  (unified_filter_coordinates rows).map unified_clean_rest

/-- C9: every row surviving `UnifiedDataCleaner.clean` has non-null
coordinates inside the hardcoded Austin box 30.0 ≤ lat ≤ 30.6,
-98.0 ≤ lon ≤ -97.5; every row outside the box is dropped; the
remaining cleaning steps do not alter coordinates; and a row with
globally valid coordinates outside Austin (New York, 40.7 and -74)
fails the filter predicate while satisfying the world bounds. -/
theorem C9_austin_bounding_box (rows : List URow) :
    (∀ r ∈ unified_clean rows, ∃ la lo,
      r.latitude = some la ∧ r.longitude = some lo ∧
      30 ≤ la ∧ la ≤ 30.6 ∧ -98 ≤ lo ∧ lo ≤ -97.5) ∧
    (∀ s ∈ rows, austinKeep s = false → s ∉ unified_filter_coordinates rows) ∧
    (∀ s : URow, (unified_clean_rest s).latitude = s.latitude ∧
      (unified_clean_rest s).longitude = s.longitude) ∧
    austinKeep ⟨some 40.7, some (-74), [], none⟩ = false ∧
    ((-90 : ℚ) ≤ 40.7 ∧ (40.7 : ℚ) ≤ 90 ∧ (-180 : ℚ) ≤ -74 ∧ (-74 : ℚ) ≤ 180) := by
  refine ⟨?_, ?_, ?_,
    by simp only [austinKeep, decide_eq_false_iff_not]; norm_num, by norm_num⟩
  · intro r hr
    simp only [unified_clean, List.mem_map, unified_filter_coordinates,
      List.mem_filter] at hr
    obtain ⟨s, ⟨_, hk⟩, hmap⟩ := hr
    rcases s with ⟨la, lo, zs, z⟩
    cases la with
    | none => simp [austinKeep] at hk
    | some la =>
      cases lo with
      | none => simp [austinKeep] at hk
      | some lo =>
        simp only [austinKeep, decide_eq_true_eq] at hk
        refine ⟨la, lo, ?_, ?_, hk.1, hk.2.1, hk.2.2.1, hk.2.2.2⟩ <;>
          rw [← hmap] <;> rfl
  · intro s hs hk hmem
    rw [unified_filter_coordinates, List.mem_filter] at hmem
    rw [hk] at hmem
    exact Bool.false_ne_true hmem.2
  · intro s
    exact ⟨rfl, rfl⟩

/-- Witness for C9: the New York row is dropped by the filter. -/
theorem C9_austin_bounding_box_witness :
    (⟨some 40.7, some (-74), [], none⟩ : URow) ∉
      unified_filter_coordinates [⟨some 40.7, some (-74), [], none⟩] :=
  (C9_austin_bounding_box [⟨some 40.7, some (-74), [], none⟩]).2.1
    ⟨some 40.7, some (-74), [], none⟩ (by simp)
    (by simp only [austinKeep, decide_eq_false_iff_not]; norm_num)

/-! ## Rule-based trade categorization
`scripts/python/rule_categorize.py`, `TRADE_RULES` and `categorize`.
Every pattern in `TRADE_RULES` has the shape `\b(alt|alt|...)\b` with
`re.IGNORECASE`, where each alternative is a literal word possibly
containing `\s*` or an optional single character (`/?`, `-?`).  The
embedding compiles each alternative from a literal in which the marker
`~` stands for `\s*` and a trailing `?` makes the previous character
optional, and implements the (backtracking) match directly. -/

/-- One token of a compiled regex alternative. -/
inductive RTok where
  | ch : Char → RTok
  | wsStar : RTok
  | optCh : Char → RTok
deriving DecidableEq, Repr

/-- A regex word character (`\w` = `[A-Za-z0-9_]` on ASCII text). -/
def wordChar (c : Char) : Bool :=
  c.isAlphanum || c = '_'

/-- A Python regex whitespace character (`\s`). -/
def pySpace (c : Char) : Bool :=
  c = ' ' || c = '\t' || c = '\n' || c = '\r' || c = '\x0b' || c = '\x0c'

/-- All suffixes remaining after the token list matches a prefix of the
input (case-insensitively); backtracking is the list of results.  The
fuel only bounds the recursion: `tokens.length + input.length` always
suffices, as every call consumes a token or an input character. -/
def restsFuel : ℕ → List RTok → List Char → List (List Char)
  | _, [], s => [s]
  | 0, _ :: _, _ => []
  | fuel + 1, RTok.ch c :: p, s =>
    match s with
    | [] => []
    | d :: t => if d.toLower = c then restsFuel fuel p t else []
  | fuel + 1, RTok.optCh c :: p, s =>
    restsFuel fuel p s ++
      (match s with
       | [] => []
       | d :: t => if d.toLower = c then restsFuel fuel p t else [])
  | fuel + 1, RTok.wsStar :: p, s =>
    restsFuel fuel p s ++
      (match s with
       | [] => []
       | d :: t => if pySpace d then restsFuel fuel (RTok.wsStar :: p) t else [])

/-- One alternative matches at the head of `s` and ends on a `\b`
boundary (every alternative of `TRADE_RULES` ends in a word
character, so the boundary holds iff the next input character is not a
word character). -/
def altMatchesAt (alt : List RTok) (s : List Char) : Bool :=
  (restsFuel (alt.length + s.length) alt s).any
    (fun rest => match rest with
      | [] => true
      | d :: _ => !wordChar d)

/-- The `\b` boundary before a match position: start of input, or a
non-word previous character (every alternative starts with a word
character). -/
def boundaryOk : Option Char → Bool
  | none => true
  | some c => !wordChar c

/-- Scan every position of the input for an alternative match with
word boundaries on both sides (`re.search`). -/
def searchAux (alts : List (List RTok)) : Option Char → List Char → Bool
  | prev, s =>
    (boundaryOk prev && alts.any (fun a => altMatchesAt a s)) ||
      (match s with
       | [] => false
       | d :: t => searchAux alts (some d) t)

/-- `pattern.search(description)` for one `\b(alt|...|alt)\b` pattern. -/
def searchPattern (alts : List (List RTok)) (s : List Char) : Bool :=
  searchAux alts none s

/-- Compile one alternative: `~` is `\s*`, a trailing `?` makes the
preceding character optional, everything else is a literal. -/
def compileWord : List Char → List RTok
  | [] => []
  | '~' :: rest => RTok.wsStar :: compileWord rest
  | c :: '?' :: rest => RTok.optCh c :: compileWord rest
  | c :: rest => RTok.ch c :: compileWord rest

/-- Compile the alternatives of one `TRADE_RULES` pattern. -/
def mkPat (alts : List String) : List (List RTok) :=
  alts.map (fun a => compileWord a.toList)

/-- `TRADE_RULES` of `rule_categorize.py`: the ordered (pattern, trade)
list, first match wins. -/
def TRADE_RULES : List (List (List RTok) × List Char) :=
  [(mkPat ["demo", "demolition", "demolish", "tear~down", "raze"],
    "demolition".toList),
   (mkPat ["electric", "electrical", "wire", "wiring", "outlet", "panel",
           "circuit", "breaker", "meter", "transformer", "generator",
           "solar", "pv", "photovoltaic", "ev~charg", "tesla~wall",
           "powerwall", "battery~storage"],
    "electrical".toList),
   (mkPat ["plumb", "plumbing", "pipe", "piping", "water~heater", "drain",
           "sewer", "septic", "toilet", "sink", "faucet", "backflow",
           "irrigation", "sprinkler", "well~pump"],
    "plumbing".toList),
   (mkPat ["hvac", "a/?c", "air~condition", "heat~pump", "furnace", "duct",
           "ductwork", "mini~split", "condenser", "compressor", "ventilat",
           "exhaust~fan"],
    "hvac".toList),
   (mkPat ["roof", "roofing", "shingle", "re-?roof", "reroof"],
    "roofing".toList),
   (mkPat ["gas~line", "gas~pipe", "natural~gas", "propane", "gas~meter",
           "gas~service"],
    "gas".toList),
   (mkPat ["foundation", "slab", "pier", "footing", "concrete~pour",
           "grade~beam", "post~tension"],
    "foundation".toList),
   (mkPat ["structur", "beam", "column", "load~bearing", "framing", "steel",
           "joist", "truss", "retaining~wall"],
    "structural".toList),
   (mkPat ["irrigat", "sprinkler~system", "drip~system", "landscape~water"],
    "irrigation".toList),
   (mkPat ["fire~alarm", "fire~sprinkler", "fire~suppression",
           "smoke~detector", "fire~extinguish"],
    "fire_safety".toList),
   (mkPat ["pool", "spa", "hot~tub", "swimming"],
    "pool".toList),
   (mkPat ["fence", "fencing", "gate"],
    "fence".toList),
   (mkPat ["driveway", "sidewalk", "flatwork", "patio", "concrete~pad"],
    "flatwork".toList),
   (mkPat ["sign", "signage", "banner", "monument~sign"],
    "signage".toList),
   (mkPat ["remodel", "renovation", "addition", "new~construct",
           "build~out", "tenant~improve", "finish~out", "interior~alter"],
    "general".toList)]

/-- `categorize` of `rule_categorize.py`: `None` for falsy input
(Python `if not description: return None`), else the first matching
rule's trade, else the string "other". -/
def categorize (description : Option (List Char)) : Option (List Char) :=
  match description with
  | none => none
  | some [] => none
  | some (c :: rest) =>
    match TRADE_RULES.find? (fun r => searchPattern r.1 (c :: rest)) with
    | some r => some r.2
    | none => some "other".toList

/-- `find?` returns the first element satisfying the predicate. -/
lemma find_first_of_index {α : Type} (p : α → Bool) :
    ∀ (l : List α) (i : ℕ) (hi : i < l.length),
      p (l.get ⟨i, hi⟩) = true →
      (∀ j (hj : j < i), p (l.get ⟨j, Nat.lt_trans hj hi⟩) = false) →
      l.find? p = some (l.get ⟨i, hi⟩) := by
  intro l
  induction l with
  | nil => intro i hi; exact absurd hi (Nat.not_lt_zero i)
  | cons x xs ih =>
    intro i hi hp hprev
    cases i with
    | zero => simp only [List.get] at hp ⊢; rw [List.find?_cons, hp]
    | succ i =>
      have hx : p x = false := hprev 0 (Nat.succ_pos i)
      rw [List.find?_cons, hx]
      exact ih i (Nat.lt_of_succ_lt_succ hi) hp
        (fun j hj => hprev (j + 1) (Nat.succ_lt_succ hj))

/-- C7 counterexample: for empty (and null) text `categorize` returns
Python `None`, not the sentinel "other" the claim promises. -/
theorem C7_counterexample :
    categorize (some []) = none ∧
    categorize none = none ∧
    (none : Option (List Char)) ≠ some "other".toList := by
  refine ⟨rfl, rfl, by decide⟩

/-- C7 (amended): for nonempty text, `categorize` returns the label of
the first rule of the ordered `TRADE_RULES` list whose pattern matches,
and "other" when no pattern matches; for null or empty text it returns
null (`None`), not "other".  Since the demolition rule is first, a
description matching it and a later generic rule is classified
"demolition". -/
theorem C7_rule_cascade (d : List Char) (hne : d ≠ []) :
    (∀ i (hi : i < TRADE_RULES.length),
      searchPattern (TRADE_RULES.get ⟨i, hi⟩).1 d = true →
      (∀ j (hj : j < i),
        searchPattern (TRADE_RULES.get ⟨j, Nat.lt_trans hj hi⟩).1 d = false) →
      categorize (some d) = some (TRADE_RULES.get ⟨i, hi⟩).2) ∧
    ((∀ r ∈ TRADE_RULES, searchPattern r.1 d = false) →
      categorize (some d) = some "other".toList) := by
  obtain ⟨c, rest, rfl⟩ := List.exists_cons_of_ne_nil hne
  constructor
  · intro i hi hp hprev
    have hfind := find_first_of_index
      (fun r => searchPattern r.1 (c :: rest)) TRADE_RULES i hi hp hprev
    simp only [categorize, hfind]
  · intro hall
    have hfind : TRADE_RULES.find?
        (fun r => searchPattern r.1 (c :: rest)) = none :=
      List.find?_eq_none.mpr (fun r hr => by simp [hall r hr])
    simp only [categorize, hfind]

/-- Witness for C7: "demolition and remodel" matches the demolition
rule (index 0) and is classified "demolition" even though the generic
remodel rule also matches later in the cascade. -/
theorem C7_rule_cascade_witness :
    categorize (some "demolition and remodel".toList) =
      some "demolition".toList ∧
    searchPattern (TRADE_RULES.get ⟨14, by decide⟩).1
      "demolition and remodel".toList = true := by
  constructor
  · have h := (C7_rule_cascade "demolition and remodel".toList (by decide)).1
      0 (by decide) (by decide) (fun j hj => absurd hj (Nat.not_lt_zero j))
    exact h.trans (by decide)
  · decide

/-! ## Nearest-centroid incremental assignment
`scripts/python/cluster_new_permits.py`, `assign_nearest_cluster`.
Feature vectors and centroids are lists of reals; the centroid dict of
`compute_centroids` (keyed in ascending cluster-id order, as Python
dicts preserve the insertion order of the `ORDER BY cluster_id` query)
is an association list. -/

/-- `np.dot` of two vectors. -/
def dotR : List ℝ → List ℝ → ℝ
  | x :: xs, y :: ys => x * y + dotR xs ys
  | _, _ => 0

/-- `np.linalg.norm`: the Euclidean norm. -/
noncomputable def normR (v : List ℝ) : ℝ :=
  Real.sqrt (dotR v v)

/-- `np.dot(feat, centroid) / (feat_norm * c_norm)`: cosine similarity
as the loop body computes it. -/
noncomputable def simOf (feat c : List ℝ) : ℝ :=
  dotR feat c / (normR feat * normR c)

/-- One iteration of the centroid loop: skip a zero-norm centroid, else
take the new cluster when its similarity strictly exceeds the best so
far (`if sim > best_sim`). -/
noncomputable def assignStep (feat : List ℝ) (acc : ℤ × ℝ)
    (entry : ℤ × List ℝ) : ℤ × ℝ :=
  if normR entry.2 = 0 then acc
  else if acc.2 < simOf feat entry.2 then (entry.1, simOf feat entry.2)
  else acc

/-- `assign_nearest_cluster` of `cluster_new_permits.py`: fallback
cluster 1 for a zero-norm feature vector, else a fold over the centroid
entries starting from `best_cluster = 1`, `best_sim = -1`. -/
noncomputable def assign_nearest_cluster (features : List ℝ)
    (centroids : List (ℤ × List ℝ)) : ℤ :=
  if normR features = 0 then 1
  else (centroids.foldl (assignStep features) (1, -1)).1

lemma dotR_nonneg : ∀ xs ys : List ℝ,
    (∀ x ∈ xs, 0 ≤ x) → (∀ y ∈ ys, 0 ≤ y) → 0 ≤ dotR xs ys := by
  intro xs
  induction xs with
  | nil => intro ys _ _; cases ys <;> simp [dotR]
  | cons x xs ih =>
    intro ys hx hy
    cases ys with
    | nil => simp [dotR]
    | cons y ys =>
      simp only [dotR]
      have h1 : 0 ≤ x * y :=
        mul_nonneg (hx x (List.mem_cons_self _ _)) (hy y (List.mem_cons_self _ _))
      have h2 : 0 ≤ dotR xs ys :=
        ih ys (fun a ha => hx a (List.mem_cons_of_mem x ha))
          (fun a ha => hy a (List.mem_cons_of_mem y ha))
      linarith

lemma normR_nonneg (v : List ℝ) : 0 ≤ normR v :=
  Real.sqrt_nonneg _

lemma simOf_nonneg (feat c : List ℝ) (hf : ∀ x ∈ feat, 0 ≤ x)
    (hc : ∀ x ∈ c, 0 ≤ x) : 0 ≤ simOf feat c :=
  div_nonneg (dotR_nonneg feat c hf hc)
    (mul_nonneg (normR_nonneg feat) (normR_nonneg c))

/-- Behaviour of the centroid fold on a key-sorted association list:
either no centroid with nonzero norm beats the accumulator (which is
then returned unchanged), or the result is the first — hence, keys
ascending, lowest-id — entry attaining the maximal similarity among
nonzero-norm centroids. -/
lemma assign_fold_spec (feat : List ℝ) :
    ∀ (l : List (ℤ × List ℝ)) (acc : ℤ × ℝ),
      l.Pairwise (fun a b => a.1 < b.1) →
      ((l.foldl (assignStep feat) acc = acc ∧
          ∀ e ∈ l, normR e.2 ≠ 0 → simOf feat e.2 ≤ acc.2) ∨
       (∃ e ∈ l, normR e.2 ≠ 0 ∧
          l.foldl (assignStep feat) acc = (e.1, simOf feat e.2) ∧
          acc.2 < simOf feat e.2 ∧
          (∀ e2 ∈ l, normR e2.2 ≠ 0 → simOf feat e2.2 ≤ simOf feat e.2) ∧
          (∀ e2 ∈ l, normR e2.2 ≠ 0 → simOf feat e2.2 = simOf feat e.2 →
            e.1 ≤ e2.1))) := by
  intro l
  induction l with
  | nil => intro acc _; left; exact ⟨rfl, by simp⟩
  | cons x xs ih =>
    intro acc hpw
    obtain ⟨hx, hxs⟩ := List.pairwise_cons.mp hpw
    rw [List.foldl_cons]
    by_cases hn0 : normR x.2 = 0
    · have hstep : assignStep feat acc x = acc := by
        simp [assignStep, hn0]
      rw [hstep]
      rcases ih acc hxs with ⟨heq, hmax⟩ | ⟨e, he, hne0, heq, hlt, hmax, htie⟩
      · left
        refine ⟨heq, ?_⟩
        intro e he hne
        rcases List.mem_cons.mp he with rfl | he2
        · exact absurd hn0 hne
        · exact hmax e he2 hne
      · right
        refine ⟨e, List.mem_cons_of_mem x he, hne0, heq, hlt, ?_, ?_⟩
        · intro e2 he2 hne2
          rcases List.mem_cons.mp he2 with rfl | he3
          · exact absurd hn0 hne2
          · exact hmax e2 he3 hne2
        · intro e2 he2 hne2 hsim
          rcases List.mem_cons.mp he2 with rfl | he3
          · exact absurd hn0 hne2
          · exact htie e2 he3 hne2 hsim
    · by_cases hlt : acc.2 < simOf feat x.2
      · have hstep : assignStep feat acc x = (x.1, simOf feat x.2) := by
          simp [assignStep, hn0, hlt]
        rw [hstep]
        rcases ih (x.1, simOf feat x.2) hxs with
          ⟨heq, hmax⟩ | ⟨e, he, hne0, heq, hlt2, hmax, htie⟩
        · right
          refine ⟨x, List.mem_cons_self _ _, hn0, heq, hlt, ?_, ?_⟩
          · intro e2 he2 hne2
            rcases List.mem_cons.mp he2 with rfl | he3
            · exact le_refl _
            · exact hmax e2 he3 hne2
          · intro e2 he2 hne2 _
            rcases List.mem_cons.mp he2 with rfl | he3
            · exact le_refl _
            · exact le_of_lt (hx e2 he3)
        · right
          have hxe : simOf feat x.2 < simOf feat e.2 := hlt2
          refine ⟨e, List.mem_cons_of_mem x he, hne0, heq,
            lt_trans hlt hxe, ?_, ?_⟩
          · intro e2 he2 hne2
            rcases List.mem_cons.mp he2 with rfl | he3
            · exact le_of_lt hxe
            · exact hmax e2 he3 hne2
          · intro e2 he2 hne2 hsim
            rcases List.mem_cons.mp he2 with rfl | he3
            · exact absurd hsim (ne_of_lt hxe)
            · exact htie e2 he3 hne2 hsim
      · have hstep : assignStep feat acc x = acc := by
          simp [assignStep, hn0, hlt]
        rw [hstep]
        have hle : simOf feat x.2 ≤ acc.2 := not_lt.mp hlt
        rcases ih acc hxs with ⟨heq, hmax⟩ | ⟨e, he, hne0, heq, hlt2, hmax, htie⟩
        · left
          refine ⟨heq, ?_⟩
          intro e he2 hne
          rcases List.mem_cons.mp he2 with rfl | he3
          · exact hle
          · exact hmax e he3 hne
        · right
          refine ⟨e, List.mem_cons_of_mem x he, hne0, heq, hlt2, ?_, ?_⟩
          · intro e2 he2 hne2
            rcases List.mem_cons.mp he2 with rfl | he3
            · exact le_of_lt (lt_of_le_of_lt hle hlt2)
            · exact hmax e2 he3 hne2
          · intro e2 he2 hne2 hsim
            rcases List.mem_cons.mp he2 with rfl | he3
            · exact absurd hsim (ne_of_lt (lt_of_le_of_lt hle hlt2))
            · exact htie e2 he3 hne2 hsim

/-- The fold's cluster id is the start value or a key of the list. -/
lemma assign_fold_fst (feat : List ℝ) :
    ∀ (l : List (ℤ × List ℝ)) (acc : ℤ × ℝ),
      (l.foldl (assignStep feat) acc).1 = acc.1 ∨
        ∃ e ∈ l, (l.foldl (assignStep feat) acc).1 = e.1 := by
  intro l
  induction l with
  | nil => intro acc; left; rfl
  | cons x xs ih =>
    intro acc
    rw [List.foldl_cons]
    rcases ih (assignStep feat acc x) with h | ⟨e, he, h⟩
    · by_cases hn0 : normR x.2 = 0
      · left; rw [h]; simp [assignStep, hn0]
      · by_cases hlt : acc.2 < simOf feat x.2
        · right
          refine ⟨x, List.mem_cons_self _ _, ?_⟩
          rw [h]; simp [assignStep, hn0, hlt]
        · left; rw [h]; simp [assignStep, hn0, hlt]
    · right; exact ⟨e, List.mem_cons_of_mem x he, h⟩

/-- With only zero-norm centroids the fold never updates. -/
lemma assign_fold_all_zero (feat : List ℝ) :
    ∀ (l : List (ℤ × List ℝ)) (acc : ℤ × ℝ),
      (∀ e ∈ l, normR e.2 = 0) → l.foldl (assignStep feat) acc = acc := by
  intro l
  induction l with
  | nil => intro acc _; rfl
  | cons x xs ih =>
    intro acc hz
    rw [List.foldl_cons]
    have hx : assignStep feat acc x = acc := by
      simp [assignStep, hz x (List.mem_cons_self _ _)]
    rw [hx]
    exact ih acc (fun e he => hz e (List.mem_cons_of_mem x he))

lemma dotR_replicate_zero (n : ℕ) :
    dotR (List.replicate n (0 : ℝ)) (List.replicate n 0) = 0 := by
  induction n with
  | zero => rfl
  | succ n ih => simp only [List.replicate, dotR, ih]; ring

lemma normR_replicate_zero (n : ℕ) :
    normR (List.replicate n (0 : ℝ)) = 0 := by
  rw [normR, dotR_replicate_zero, Real.sqrt_zero]

lemma normR_single_one : normR [(1 : ℝ)] = 1 := by
  have h : dotR [(1 : ℝ)] [1] = 1 := by simp [dotR]
  rw [normR, h, Real.sqrt_one]

lemma normR_single_zero : normR [(0 : ℝ)] = 0 := by
  have h : dotR [(0 : ℝ)] [0] = 0 := by simp [dotR]
  rw [normR, h, Real.sqrt_zero]

/-- C1: for a feature vector of binary entries with nonzero norm and a
centroid map with componentwise-nonnegative centroids keyed in
ascending cluster-id order, at least one of nonzero norm,
`assign_nearest_cluster` returns the cluster id of maximal cosine
similarity, zero-norm centroids skipped, ties going to the lowest id. -/
theorem C1_max_cosine_assignment (feat : List ℝ)
    (centroids : List (ℤ × List ℝ))
    (hfeat : ∀ x ∈ feat, x = 0 ∨ x = 1)
    (hcent : ∀ e ∈ centroids, ∀ x ∈ e.2, 0 ≤ x)
    (hsorted : centroids.Pairwise (fun a b => a.1 < b.1))
    (hnz : normR feat ≠ 0)
    (hex : ∃ e ∈ centroids, normR e.2 ≠ 0) :
    ∃ e ∈ centroids, normR e.2 ≠ 0 ∧
      assign_nearest_cluster feat centroids = e.1 ∧
      (∀ e2 ∈ centroids, normR e2.2 ≠ 0 →
        simOf feat e2.2 ≤ simOf feat e.2) ∧
      (∀ e2 ∈ centroids, normR e2.2 ≠ 0 →
        simOf feat e2.2 = simOf feat e.2 → e.1 ≤ e2.1) := by
  have hfeat0 : ∀ x ∈ feat, 0 ≤ x := by
    intro x hx
    rcases hfeat x hx with h | h <;> rw [h] <;> norm_num
  rcases assign_fold_spec feat centroids (1, -1) hsorted with
    ⟨_, hmax⟩ | ⟨e, he, hne0, heq, _, hmax, htie⟩
  · obtain ⟨e0, he0, hn0⟩ := hex
    have h1 : 0 ≤ simOf feat e0.2 :=
      simOf_nonneg feat e0.2 hfeat0 (hcent e0 he0)
    have h2 : simOf feat e0.2 ≤ ((1 : ℤ), (-1 : ℝ)).2 := hmax e0 he0 hn0
    norm_num at h2
    linarith
  · refine ⟨e, he, hne0, ?_, hmax, htie⟩
    rw [assign_nearest_cluster, if_neg hnz, heq]

/-- Witness for C1 with feature vector `[1]` and centroids
`{2 : [1], 3 : [1, 1]}`: the result is one of the two map keys. -/
theorem C1_max_cosine_assignment_witness :
    assign_nearest_cluster [1] [((2 : ℤ), [(1 : ℝ)]), (3, [1, 1])] = 2 ∨
    assign_nearest_cluster [1] [((2 : ℤ), [(1 : ℝ)]), (3, [1, 1])] = 3 := by
  have h := C1_max_cosine_assignment [1] [((2 : ℤ), [(1 : ℝ)]), (3, [1, 1])]
    (by intro x hx; simp only [List.mem_singleton] at hx; right; exact hx)
    (by
      intro e he x hx
      simp only [List.mem_cons, List.not_mem_nil, or_false] at he
      rcases he with rfl | rfl
      · simp only [List.mem_cons, List.not_mem_nil, or_false] at hx
        rw [hx]; norm_num
      · simp only [List.mem_cons, List.not_mem_nil, or_false] at hx
        rcases hx with rfl | rfl <;> norm_num)
    (by
      refine List.pairwise_cons.mpr ⟨?_, ?_⟩
      · intro b hb
        simp only [List.mem_cons, List.not_mem_nil, or_false] at hb
        rw [hb]; norm_num
      · exact List.pairwise_singleton _ _)
    (by rw [normR_single_one]; exact one_ne_zero)
    ⟨((2 : ℤ), [(1 : ℝ)]), by simp, by
      rw [show (((2 : ℤ), [(1 : ℝ)])).2 = [(1 : ℝ)] from rfl, normR_single_one]
      exact one_ne_zero⟩
  obtain ⟨e, he, _, heq, _, _⟩ := h
  simp only [List.mem_cons, List.not_mem_nil, or_false] at he
  rcases he with rfl | rfl
  · left; exact heq
  · right; exact heq

/-- C2: the all-zero feature vector is assigned the fallback cluster 1
(its norm is 0, so the similarity loop is never entered), and whenever
the code's division executes — input norm nonzero by the outer guard,
centroid norm nonzero by the skip guard — the denominator
`feat_norm * c_norm` is nonzero. -/
theorem C2_zero_vector_fallback (n : ℕ) (centroids : List (ℤ × List ℝ))
    (feat : List ℝ) :
    assign_nearest_cluster (List.replicate n 0) centroids = 1 ∧
    (normR feat ≠ 0 → ∀ e ∈ centroids, normR e.2 ≠ 0 →
      normR feat * normR e.2 ≠ 0) := by
  constructor
  · rw [assign_nearest_cluster, if_pos (normR_replicate_zero n)]
  · intro h1 e _ h2
    exact mul_ne_zero h1 h2

/-- Witness for C2: the zero vector of length 2 falls back to cluster 1
against the centroid map `{3 : [1]}`, whose denominator is nonzero. -/
theorem C2_zero_vector_fallback_witness :
    assign_nearest_cluster (List.replicate 2 0) [((3 : ℤ), [(1 : ℝ)])] = 1 ∧
    normR [(1 : ℝ)] * normR [(1 : ℝ)] ≠ 0 :=
  ⟨(C2_zero_vector_fallback 2 [((3 : ℤ), [(1 : ℝ)])] [1]).1,
   (C2_zero_vector_fallback 2 [((3 : ℤ), [(1 : ℝ)])] [1]).2
     (by rw [normR_single_one]; exact one_ne_zero)
     ((3 : ℤ), [(1 : ℝ)]) (by simp)
     (by rw [show (((3 : ℤ), [(1 : ℝ)])).2 = [(1 : ℝ)] from rfl,
           normR_single_one]
         exact one_ne_zero)⟩

/-- C10: `assign_nearest_cluster` returns a key of the centroid map or
the hardcoded default 1; with an empty map, or a map whose centroids
all have zero norm, it returns 1 — whether or not 1 is a key. -/
theorem C10_result_key_or_default (feat : List ℝ)
    (centroids : List (ℤ × List ℝ)) :
    ((∃ c, (assign_nearest_cluster feat centroids, c) ∈ centroids) ∨
      assign_nearest_cluster feat centroids = 1) ∧
    ((∀ e ∈ centroids, normR e.2 = 0) →
      assign_nearest_cluster feat centroids = 1) ∧
    assign_nearest_cluster feat [] = 1 := by
  refine ⟨?_, ?_, ?_⟩
  · by_cases hnz : normR feat = 0
    · right; rw [assign_nearest_cluster, if_pos hnz]
    · rw [assign_nearest_cluster, if_neg hnz]
      rcases assign_fold_fst feat centroids (1, -1) with h | ⟨e, he, h⟩
      · right; exact h
      · left
        exact ⟨e.2, by rw [h]; exact he⟩
  · intro hz
    by_cases hnz : normR feat = 0
    · rw [assign_nearest_cluster, if_pos hnz]
    · rw [assign_nearest_cluster, if_neg hnz,
        assign_fold_all_zero feat centroids (1, -1) hz]
  · by_cases hnz : normR feat = 0
    · rw [assign_nearest_cluster, if_pos hnz]
    · rw [assign_nearest_cluster, if_neg hnz]; rfl

/-- Witness for C10: against the map `{7 : [0]}` (all centroids of zero
norm, 1 not a key) the vector `[1]` is assigned cluster 1. -/
theorem C10_result_key_or_default_witness :
    assign_nearest_cluster [1] [((7 : ℤ), [(0 : ℝ)])] = 1 ∧ (1 : ℤ) ≠ 7 :=
  ⟨(C10_result_key_or_default [1] [((7 : ℤ), [(0 : ℝ)])]).2.1
    (by
      intro e he
      simp only [List.mem_cons, List.not_mem_nil, or_false] at he
      rw [he]
      exact normR_single_zero),
   by decide⟩

end Undervolt
